import Mathlib

/-!
# Verification of the GotoUsage core (dependency graph + line scanner)

A shallow embedding, in Lean 4, of the core logic of the GotoUsage plugin:

* `src/utils.py` — `find_strings` (string-literal scanner);
* `src/core.py` — `is_actual_usage` (genuine-usage predicate), `parse_lines`
  (line context classifier), `get_usages_in_file`, and the staleness logic of
  `load_graph`;
* `src/dep_graph.py` — the `DepGraph` class (`add` / `set` / `set_data` /
  `get_dependants` / `get_dependees` / `_traverse_graph`);
* `src/utils.py` — `load_graph` (cache loading, exception behaviour).

Lines of text are modelled as `List Char` (Python `str`), Python `dict`s as
insertion-ordered association lists, and Python exceptions as `Except` values.
-/

namespace GotoUsage

/-! ## Python string primitives on `List Char` -/

/-- Python's `str.strip(chars)`: drop characters belonging to `cs` from both
ends of the string. -/
def pyStrip (l : List Char) (cs : List Char) : List Char :=
  ((l.dropWhile (· ∈ cs)).reverse.dropWhile (· ∈ cs)).reverse

/-- Python's `str.rstrip(chars)`: drop characters belonging to `cs` from the
right end of the string. -/
def pyRstrip (l : List Char) (cs : List Char) : List Char :=
  (l.reverse.dropWhile (· ∈ cs)).reverse

/-- Python's `str.find(c, start)` for a single-character needle: index of the
first occurrence of `c` at position `≥ start`, or `none` (Python's `-1`). -/
def findCharFrom (l : List Char) (c : Char) (start : Nat) : Option Nat :=
  match (l.drop start).findIdx? (· = c) with
  | none => none
  | some i => some (start + i)

/-- Index of the first occurrence of `sub` as a contiguous substring of `l`
(Python's `str.find(sub)`); `none` when absent (Python's `-1`).  Like Python,
the empty substring is found at index 0. -/
def findSubstrIdx : List Char → List Char → Option Nat
  | l, sub =>
    if sub.isPrefixOf l then some 0
    else match l with
      | [] => none
      | _ :: t => (findSubstrIdx t sub).map (· + 1)

/-- Python's `sub in l` substring test. -/
def containsSubstr (l sub : List Char) : Bool :=
  (findSubstrIdx l sub).isSome

/-! ## `utils.find_strings` (src/utils.py lines 23–65) -/

/-- `utils.STRING_DELIMITERS`. -/
def STRING_DELIMITERS : List Char := ['"', '\'', '`']

/-- `count_backslashes(input, from_pos)` of `find_strings`, called with
`from_pos = pos - 1`: the number of consecutive backslashes immediately
preceding index `pos` (walking left from `pos - 1`).  When `pos = 0` the
Python loop body never runs (`from_pos = -1`) and the count is 0, which the
`take` formulation reproduces. -/
def count_backslashes_before (input : List Char) (pos : Nat) : Nat :=
  ((input.take pos).reverse.takeWhile (· = '\\')).length

/-- The inner loop of `find_strings`: starting after index `next`, find the
next occurrence of `delim` that is not preceded by an odd number of
backslashes; `none` when the delimiter is never closed (Python's `-1`).
`fuel` bounds the loop; the caller passes `input.length + 1`, which is enough
for the loop to always reach one of its `break` conditions (the source instead
caps the loop at 200 iterations and raises — a defensive guard the spec calls
an internal-error signal, unreachable for the inputs considered here). -/
def fsInner (input : List Char) (delim : Char) : Nat → Nat → Option Nat
  | 0, _ => none
  | fuel + 1, next =>
    match findCharFrom input delim (next + 1) with
    | none => none
    | some n2 =>
      if count_backslashes_before input n2 % 2 = 0 then some n2
      else fsInner input delim fuel n2

/-- The outer loop of `find_strings` for one delimiter kind.  `start` is the
Python loop variable (initially `-1`, hence `Int`); each iteration searches
from `start + 1`.  On an escaped opening delimiter at `first`, the source sets
`start = first + 1` and continues; on a matched pair `(first, next)` it
records the range and continues from `next`; on an unmatched opening
delimiter it records `(first, len(input))` and stops.  `fuel` is as in
`fsInner`. -/
def fsOuter (input : List Char) (delim : Char) : Nat → Int → List (Nat × Nat)
  | 0, _ => []
  | fuel + 1, start =>
    match findCharFrom input delim (start + 1).toNat with
    | none => []
    | some first =>
      if count_backslashes_before input first % 2 ≠ 0 then
        fsOuter input delim fuel (first + 1)
      else
        match fsInner input delim (input.length + 1) first with
        | none => [(first, input.length)]
        | some nxt => (first, nxt) :: fsOuter input delim fuel nxt

/-- Insertion into a list sorted by the lexicographic order on pairs, used to
model Python's `sorted` on a list of 2-tuples. -/
def insertRange (x : Nat × Nat) : List (Nat × Nat) → List (Nat × Nat)
  | [] => [x]
  | y :: t =>
    if x.1 < y.1 ∨ (x.1 = y.1 ∧ x.2 ≤ y.2) then x :: y :: t
    else y :: insertRange x t

/-- Python's `sorted` on a list of ranges (lexicographic). -/
def sortRanges (l : List (Nat × Nat)) : List (Nat × Nat) :=
  l.foldr insertRange []

/-- `utils.find_strings`: the (sorted) list of `(open, close)` index ranges of
string literals found on a line, per delimiter kind, where a delimiter
preceded by an odd number of backslashes does not count and an unterminated
literal extends to end-of-line. -/
def find_strings (input : List Char) : List (Nat × Nat) :=
  sortRanges (STRING_DELIMITERS.foldr
    (fun d acc => fsOuter input d (input.length + 2) (-1) ++ acc) [])

/-! ## `core.is_actual_usage` (src/core.py lines 118–152) -/

/-- The character class of the word-break tests in `is_actual_usage`
(`[^\s()\[\]{},+*/%!;:'"=<>-]` negated): `\s` (space, tab, newline, carriage
return, vertical tab, form feed) together with the listed punctuation. -/
def breakClass : List Char :=
  [' ', '\t', '\n', '\r', '\x0b', '\x0c',
   '(', ')', '[', ']', '{', '}', ',', '+', '*', '/', '%', '!', ';', ':',
   '\'', '"', '=', '<', '>', '-']

/-- The strip set of `rstrip(' \t ([{}])')` in `is_actual_usage` (a Python
`str.rstrip` argument is a set of characters; the duplicate space is
irrelevant). -/
def defStripSet : List Char := [' ', '\t', '(', '[', '{', '}', ']', ')']

/-- `core.IGNORED_PREFIX`. -/
def IGNORED_PREFIX : List (List Char) :=
  ["import".data, "include".data, "require".data, "function".data,
   "const".data, "var".data, "let".data, "def".data, "class".data]

/-- `core.IGNORED_BEFORE`. -/
def IGNORED_BEFORE : List (List Char) :=
  ["import".data, "include".data, "require".data]

/-- `core.IGNORED_SUFFIX`. -/
def IGNORED_SUFFIX : List (List Char) :=
  [":".data, "=".data]

/-- The `if line_split[0]:` block of `is_actual_usage`: the text before the
first occurrence of the subject either is empty, or must end in a word-break
character, not end (after right-stripping whitespace/brackets) in one of the
`IGNORED_PREFIX` keywords, and not contain an `IGNORED_BEFORE` keyword. -/
def usage_before_ok (pre : List Char) : Bool :=
  pre = [] ∨
    (pre.getLastD ' ' ∈ breakClass ∧
      let before := pyRstrip pre defStripSet
      (¬ IGNORED_PREFIX.any (·.isSuffixOf before)) ∧
      (¬ IGNORED_BEFORE.any (containsSubstr before ·)))

/-- The `if line_split[1]:` block of `is_actual_usage`: the text after the
first occurrence of the subject either is empty, or must start with a
word-break character and not start (after the source's `rstrip` — note the
source right-strips here, it does not left-strip) with `:` or `=`. -/
def usage_after_ok (post : List Char) : Bool :=
  post = [] ∨
    (post.headD ' ' ∈ breakClass ∧
      let after := pyRstrip post defStripSet
      ¬ IGNORED_SUFFIX.any (·.isPrefixOf after))

/-- The final block of `is_actual_usage`: the subject's first occurrence
(`line.find(subject)`, the same index the split was taken at) must not lie
strictly inside any string-literal range of the line. -/
def usage_outside_strings (line : List Char) (subject_pos : Nat) : Bool :=
  (find_strings line).all fun r => ¬ (r.1 < subject_pos ∧ subject_pos < r.2)

/-- `core.is_actual_usage(line, subject)`.  The source indexes
`line.split(subject, 1)[1]` and therefore raises `IndexError` when the
subject does not occur; every caller guards with `subject in line` first, so
that case is modelled as `false`. -/
def is_actual_usage (line subject : List Char) : Bool :=
  match findSubstrIdx line subject with
  | none => false
  | some idx =>
    usage_before_ok (line.take idx) ∧
    usage_after_ok (line.drop (idx + subject.length)) ∧
    usage_outside_strings line idx

/-! ## `DepGraph` (src/dep_graph.py)

Python `dict`s (insertion-ordered, string keys) are modelled as association
lists without duplicate-key updates: `alookup` is `d[k]` / `k in d`,
`dictSet` is `d[k] = v` (replace in place when the key exists, append
otherwise). -/

/-- Association-list type used for `forward_graph` / `backward_graph`. -/
abbrev AList := List (String × List String)

/-- Python `d.get(k)` / `d[k]` on the modelled dict. -/
def alookup : AList → String → Option (List String)
  | [], _ => none
  | (k, v) :: t, k' => if k' = k then some v else alookup t k'

/-- Python `d[k] = v`: replace the binding in place when present (Python
dicts keep the key's insertion position), append otherwise. -/
def dictSet : AList → String → List String → AList
  | [], k, v => [(k, v)]
  | (k', v') :: t, k, v =>
    if k' = k then (k, v) :: t else (k', v') :: dictSet t k v

/-- The edge list stored under key `k` (`graph.get(k, [])`). -/
def edgeList (d : AList) (k : String) : List String :=
  (alookup d k).getD []

/-- The combined effect on one of the two dicts of the per-direction body of
`DepGraph.add`:

    if k not in d: d[k] = []
    if v not in d[k]: d[k].append(v)

When `k` is absent this stores `[v]`; when present it appends `v` unless
already there. -/
def addEdge (d : AList) (k : String) (v : String) : AList :=
  match alookup d k with
  | none => dictSet d k [v]
  | some l => if v ∈ l then d else dictSet d k (l ++ [v])

/-- The `DepGraph` state.  `num_deps` is an `Int` because it is a plain
Python integer that `set` decrements. -/
structure DepGraph where
  forward_graph : AList
  backward_graph : AList
  num_deps : Int
deriving DecidableEq, Repr

/-- `DepGraph()` / `DepGraph.clear()`. -/
def dgEmpty : DepGraph := ⟨[], [], 0⟩

/-- `DepGraph.add(dependant, dependee)` for a single (non-list) dependee.
Note the source increments `num_deps` unconditionally, before the
membership checks. -/
def dgAdd (g : DepGraph) (dependant dependee : String) : DepGraph where
  forward_graph := addEdge g.forward_graph dependant dependee
  backward_graph := addEdge g.backward_graph dependee dependant
  num_deps := g.num_deps + 1

/-- `DepGraph.add(dependant, dependee_list)` for a list dependee: the source
recurses into the single-dependee case for each element (and in that case
does not itself touch `num_deps`). -/
def dgAddList (g : DepGraph) (dependant : String) (dependees : List String) : DepGraph :=
  dependees.foldl (fun acc d => dgAdd acc dependant d) g

/-- `DepGraph.set(dependant, dependee_list)` for a list dependee: decrement
`num_deps` by the current out-degree and clear the forward entry (when the
key exists), then `add` each new dependee.  The backward lists of the
previously stored dependees are not touched. -/
def dgSet (g : DepGraph) (dependant : String) (dependees : List String) : DepGraph :=
  let g1 : DepGraph :=
    match alookup g.forward_graph dependant with
    | some l =>
      { g with
        forward_graph := dictSet g.forward_graph dependant []
        num_deps := g.num_deps - l.length }
    | none => g
  dgAddList g1 dependant dependees

/-- Total number of forward edges, `sum(len(v) for v in forward.values())` —
the quantity `set_data` recomputes `num_deps` as. -/
def total_forward_edges (g : DepGraph) : Nat :=
  (g.forward_graph.map (fun p => p.2.length)).sum

/-- `DepGraph.set_data(data)`: install both adjacency dicts and recompute
`num_deps` as `len([dep for deps in forward.values() for dep in deps])`. -/
def dgSetData (forward backward : AList) : DepGraph :=
  let g : DepGraph := ⟨forward, backward, 0⟩
  { g with num_deps := (total_forward_edges g : Int) }

/-! ### `_traverse_graph` (src/dep_graph.py lines 75–86) -/

/-- One `for i in range(self.loop_limit)` iteration body plus the loop,
with `fuel` the number of remaining iterations: build
`current_results` (new nodes reachable from `subjects`, filtering against
the accumulated `results` only — duplicates within a level are possible,
exactly as in the source), stop when empty, otherwise recurse with
`subjects = current_results` and `results` extended. -/
def traverse_loop (graph : AList) : Nat → List String → List String → List String
  | 0, results, _ => results
  | fuel + 1, results, subjects =>
    let current := subjects.flatMap fun s =>
      (edgeList graph s).filter (fun i => decide (i ∉ results))
    if current = [] then results
    else traverse_loop graph fuel (results ++ current) current

/-- `DepGraph._traverse_graph(graph, subject)` with loop limit
`loop_limit`: run the level loop and deduplicate (`list(set(results))`;
the source's result order is the unspecified Python set order, modelled
canonically by `List.dedup`, which preserves the set of members and
duplicate-freeness). -/
def _traverse_graph (loop_limit : Nat) (graph : AList) (subject : String) : List String :=
  (traverse_loop graph loop_limit [] [subject]).dedup

/-- `DepGraph.get_dependants(dependee)` with the default `loop_limit = 50`. -/
def dg_get_dependants (g : DepGraph) (dependee : String) : List String :=
  _traverse_graph 50 g.backward_graph dependee

/-- `DepGraph.get_dependees(dependant)` with the default `loop_limit = 50`. -/
def dg_get_dependees (g : DepGraph) (dependant : String) : List String :=
  _traverse_graph 50 g.forward_graph dependant

/-! ### Operation sequences over a `DepGraph` -/

/-- A mutation of the graph: one `add(p, q)` call with a single dependee, or
one `set(p, qs)` call with a list of dependees. -/
inductive DGOp where
  | add (p q : String)
  | set (p : String) (qs : List String)
deriving DecidableEq, Repr

/-- Apply one operation. -/
def applyOp (g : DepGraph) : DGOp → DepGraph
  | .add p q => dgAdd g p q
  | .set p qs => dgSet g p qs

/-- Apply a sequence of operations to a graph, left to right. -/
def applyOps (ops : List DGOp) (g : DepGraph) : DepGraph :=
  ops.foldl applyOp g

/-- `q ∈ forward_graph[p]` (false when the key is absent). -/
def fwdMem (g : DepGraph) (p q : String) : Prop :=
  q ∈ edgeList g.forward_graph p

instance (g : DepGraph) (p q : String) : Decidable (fwdMem g p q) := by
  unfold fwdMem; infer_instance

/-- `p ∈ backward_graph[q]` (false when the key is absent). -/
def bwdMem (g : DepGraph) (q p : String) : Prop :=
  p ∈ edgeList g.backward_graph q

instance (g : DepGraph) (q p : String) : Decidable (bwdMem g q p) := by
  unfold bwdMem; infer_instance

/-- The spec's graph symmetry invariant. -/
def SymInv (g : DepGraph) : Prop :=
  ∀ p q, fwdMem g p q ↔ bwdMem g q p

/-! ## `core.parse_lines` (src/core.py lines 154–223)

The three import regexes are embedded as decidable existence-of-a-match
scanners with exactly the source patterns' semantics (Python `re.search`
without `re.MULTILINE`: `$` matches at the very end of the string or just
before a terminating `'\n'`; `.` matches anything but `'\n'`). -/

/-- Python regex `\w` (ASCII range — all inputs considered are ASCII). -/
def isWordChar (c : Char) : Bool := c.isAlphanum || c = '_'

/-- Python regex `\s`. -/
def isPySpace (c : Char) : Bool :=
  c ∈ ([' ', '\t', '\n', '\r', '\x0b', '\x0c'] : List Char)

/-- A string/regex quote character `['\"]`. -/
def isQuoteChar (c : Char) : Bool := c = '\'' ∨ c = '"'

/-- `.*$` matches the remaining text `t`: all of it is newline-free, except
that a single final `'\n'` may be left for `$` to match before. -/
def dotStarDollar (t : List Char) : Bool :=
  t.all (· ≠ '\n') ∨ (t.getLast? = some '\n' ∧ t.dropLast.all (· ≠ '\n'))

/-- `.+$` matches the remaining text `t`: like `dotStarDollar` but the first
character must exist and be matched by `.`. -/
def dotPlusDollar (t : List Char) : Bool :=
  (t.headD '\n' ≠ '\n') ∧ dotStarDollar t

/-- The keyword alternation `(import|require|include)` shared by the import
regexes. -/
def importKeywords : List (List Char) :=
  ["import".data, "require".data, "include".data]

/-- The suffix `['\"][^'\"]+['\"].*$` of `SINGLE_LINE_IMPORT_RE`, searched
with `.*` from position `start`: some quote at `p ≥ start` (everything
between newline-free), a second quote at `r ≥ p + 2` with only non-quote
characters strictly between, then `.*$`. -/
def quotedTailFrom (l : List Char) (start : Nat) : Bool :=
  (List.range l.length).any fun p =>
    decide (start ≤ p) ∧ isQuoteChar (l.getD p ' ') ∧
    ((l.take p).drop start).all (· ≠ '\n') ∧
    ((List.range l.length).any fun r =>
      decide (p + 2 ≤ r) ∧ isQuoteChar (l.getD r ' ') ∧
      ((l.take r).drop (p + 1)).all (fun c => ¬ isQuoteChar c) ∧
      dotStarDollar (l.drop (r + 1)))

/-- `re.search` of `core.SINGLE_LINE_IMPORT_RE`
(`\b(import|require|include)[^\[:.].*['\"][^'\"]+['\"].*$`): at some
position `i` preceded by a non-word character (or start of line), a keyword,
then one character that is none of `[`, `:`, `.`, then a quoted non-empty
string, then `.*$`. -/
def single_line_import_match (l : List Char) : Bool :=
  (List.range (l.length + 1)).any fun i =>
    importKeywords.any fun kw =>
      (decide (i = 0) ∨ ¬ isWordChar (l.getD (i - 1) ' ')) ∧
      kw.isPrefixOf (l.drop i) ∧
      (let j := i + kw.length
       decide (j < l.length) ∧
       ¬ (l.getD j ' ' ∈ (['[', ':', '.'] : List Char)) ∧
       quotedTailFrom l (j + 1))

/-- The character class `[\s()\[\]{}]` of `MULTI_LINE_IMPORT_START_RE`. -/
def bracketSpaceClass (c : Char) : Bool :=
  isPySpace c ∨ c ∈ (['(', ')', '[', ']', '{', '}'] : List Char)

/-- `re.search` of `core.MULTI_LINE_IMPORT_START_RE`
(`\b(import|require|include)\b[\s()\[\]{}]*$`): a keyword delimited by word
boundaries followed by only whitespace/bracket characters.  Because `'\n'`
itself belongs to the class, the trailing `[...]​*$` matches exactly when
every remaining character is in the class. -/
def multi_line_import_start_match (l : List Char) : Bool :=
  (List.range (l.length + 1)).any fun i =>
    importKeywords.any fun kw =>
      (decide (i = 0) ∨ ¬ isWordChar (l.getD (i - 1) ' ')) ∧
      kw.isPrefixOf (l.drop i) ∧
      (let j := i + kw.length
       (decide (l.length ≤ j) ∨ ¬ isWordChar (l.getD j ' ')) ∧
       (l.drop j).all bracketSpaceClass)

/-- `re.search` of `core.MULTI_LINE_IMPORT_END_RE` (`^[)}\]](\s*from.+)?$`),
anchored at the start of the line: a closing bracket, then either the end of
the line or `\s*from` followed by at least one more character. -/
def multi_line_import_end_match (l : List Char) : Bool :=
  match l with
  | [] => false
  | c :: rest =>
    (c ∈ ([')', '}', ']'] : List Char)) ∧
    (rest = [] ∨ rest = ['\n'] ∨
      ((List.range (rest.length + 1)).any fun k =>
        (rest.take k).all isPySpace ∧
        ("from".data.isPrefixOf (rest.drop k)) ∧
        dotPlusDollar (rest.drop (k + 4))))

/-! ### Context constants (src/core.py lines 23–41) -/

def SINGLE_LINE_COMMENT : List (List Char) := ["#".data, "//".data]

def MULTI_LINE_COMMENT_START : List (List Char) := ["/*".data]

/-- Transcribed exactly from the source, which sets
`MULTI_LINE_COMMENT_END = ['/*']` — not `['*/']`. -/
def MULTI_LINE_COMMENT_END : List (List Char) := ["/*".data]

def C_ANY : Nat := 511
def C_CODE : Nat := 1
def C_SINGLE_IMPORT : Nat := 2
def C_MULTI_IMPORT_START : Nat := 4
def C_MULTI_IMPORT : Nat := 8
def C_MULTI_IMPORT_END : Nat := 16
def C_IMPORT : Nat := 30
def C_SINGLE_COMMENT : Nat := 32
def C_MULTI_COMMENT_START : Nat := 64
def C_MULTI_COMMENT : Nat := 128
def C_MULTI_COMMENT_END : Nat := 256
def C_COMMENT : Nat := 480

/-- The loop body of `core.parse_lines` over the lines of the file, with the
context stack held head-at-top (the source uses a Python list with
`append`/`pop`/`[-1]` at the tail).  Each raw line keeps its terminator; the
source strips `'\t'`, `' '` and `';'` (not the newline) before testing.  The
`continue`-terminated branches of the source become an if-chain: the first
branch whose (possibly compound) guard holds handles the line.  Every branch
advances `line_start` by the untrimmed line's length unconditionally, except
the final fall-through branch, which the source only advances when the line
is emitted.  The stack never empties below its initial element (pops are
guarded on comment/import contexts), so `headD 0` never takes its default. -/
def parse_lines_go (yield_context : Nat) :
    List (List Char) → List Nat → Nat → Nat → List (Nat × Nat × List Char)
  | [], _, _, _ => []
  | line_unstripped :: rest, ctx, line_start, line_nr =>
    let line := pyStrip line_unstripped ['\t', ' ', ';']
    let nr := line_nr + 1
    let top := ctx.headD 0
    -- Handle single-line comments
    if top &&& C_MULTI_COMMENT = 0 ∧ SINGLE_LINE_COMMENT.any (·.isPrefixOf line) then
      (if yield_context &&& C_COMMENT ≠ 0 then [(line_start, nr, line)] else []) ++
        parse_lines_go yield_context rest ctx (line_start + line_unstripped.length) nr
    -- Handle end of multi-line comment
    else if top &&& C_MULTI_COMMENT ≠ 0 ∧ MULTI_LINE_COMMENT_END.any (·.isPrefixOf line) then
      (if yield_context &&& C_MULTI_COMMENT_END ≠ 0 then [(line_start, nr, line)] else []) ++
        parse_lines_go yield_context rest ctx.tail (line_start + line_unstripped.length) nr
    -- Handle start of multi-line comment
    else if top &&& C_MULTI_COMMENT = 0 ∧ MULTI_LINE_COMMENT_START.any (·.isPrefixOf line) then
      (if yield_context &&& C_MULTI_COMMENT_START ≠ 0 then [(line_start, nr, line)] else []) ++
        parse_lines_go yield_context rest (C_MULTI_COMMENT :: ctx)
          (line_start + line_unstripped.length) nr
    -- Handle single-line import
    else if top &&& C_MULTI_IMPORT = 0 ∧ single_line_import_match line then
      (if yield_context &&& C_SINGLE_IMPORT ≠ 0 then [(line_start, nr, line)] else []) ++
        parse_lines_go yield_context rest ctx (line_start + line_unstripped.length) nr
    -- Handle end of import
    else if top &&& C_MULTI_IMPORT ≠ 0 ∧ multi_line_import_end_match line then
      (if yield_context &&& C_MULTI_IMPORT_END ≠ 0 then [(line_start, nr, line)] else []) ++
        parse_lines_go yield_context rest ctx.tail (line_start + line_unstripped.length) nr
    -- Handle start of multi-line import
    else if top &&& C_MULTI_IMPORT = 0 ∧ multi_line_import_start_match line then
      (if yield_context &&& C_MULTI_IMPORT_START ≠ 0 then [(line_start, nr, line)] else []) ++
        parse_lines_go yield_context rest (C_MULTI_IMPORT :: ctx)
          (line_start + line_unstripped.length) nr
    -- No context switch detected: yield current context for current line
    else
      if yield_context &&& top ≠ 0 then
        (line_start, nr, line) ::
          parse_lines_go yield_context rest ctx (line_start + line_unstripped.length) nr
      else
        parse_lines_go yield_context rest ctx line_start nr

/-- `core.parse_lines(f, yield_context)`: the emitted
`(line_start, line_nr, line)` triples for a file given as its raw lines
(each including its terminator). -/
def parse_lines (lines : List (List Char)) (yield_context : Nat) :
    List (Nat × Nat × List Char) :=
  parse_lines_go yield_context lines [C_CODE] 0 0

/-! ## `core.get_usages_in_file` (src/core.py lines 235–248) -/

/-- One usage record (`path` is the constant `file_path` argument and is
omitted; the `sublime.Region` is its start/end offset pair). -/
structure Usage where
  line_nr : Nat
  region_start : Nat
  region_end : Nat
deriving DecidableEq, Repr

/-- `core.get_usages_in_file(file_path, subject)` on the file's raw lines:
scan the code-context lines, skip lines not containing the subject, skip
lines rejected by `is_actual_usage`, and record the region of the first
occurrence of the subject on each remaining line. -/
def get_usages_in_file (lines : List (List Char)) (subject : List Char) : List Usage :=
  (parse_lines lines C_CODE).filterMap fun t =>
    match findSubstrIdx t.2.2 subject with
    | none => none
    | some offset =>
      if is_actual_usage t.2.2 subject then
        some ⟨t.2.1, t.1 + offset, t.1 + offset + subject.length⟩
      else none

/-! ## Graph cache loading -/

/-- A per-project graph record, `{'last_update': ..., 'graph': ...}`.
Timestamps are in seconds (`time.time()`), modelled as integers. -/
structure GraphRecord where
  last_update : Int
  graph : DepGraph
deriving DecidableEq, Repr

/-- The decision taken by `core.load_graph` after the cache lookup. -/
inductive GraphLoadOutcome where
  /-- No cached record, or a record with zero dependencies: run the
  `goto_usage_build_graph` command. -/
  | rebuild_missing
  /-- A record judged stale by the age test: run the
  `goto_usage_build_graph` command. -/
  | rebuild_stale
  /-- The record is stored in the `graphs` registry and used as-is. -/
  | install
deriving DecidableEq, Repr

/-- The decision logic of `core.load_graph(project_name)` (src/core.py lines
335–348), given the record returned by `utils.load_graph` and the current
time `now` in seconds: transcribed from
`if g['last_update'] < time.time() - 1000 * 60 * 60 * 24`. -/
def core_load_graph (g : Option GraphRecord) (now : Int) : GraphLoadOutcome :=
  match g with
  | none => .rebuild_missing
  | some r =>
    if r.graph.num_deps = 0 then .rebuild_missing
    else if r.last_update < now - 1000 * 60 * 60 * 24 then .rebuild_stale
    else .install

/-- The Python exceptions relevant to `utils.load_graph`. -/
inductive PyError where
  /-- `IOError` / `OSError` (includes `FileNotFoundError`), raised by
  `open` on a missing file — the one class the source catches. -/
  | ioError
  /-- `ValueError` (includes `json.JSONDecodeError`), raised by
  `json.loads` on unparseable content. -/
  | valueError
deriving DecidableEq, Repr

/-- The graph payload of a parsed cache file. -/
structure CacheData where
  last_update : Int
  forward : AList
  backward : AList

/-- `utils.load_graph(project_name)` (src/utils.py lines 149–164), modelled
over the outcome of the file read (`none` = the `open` call raises
`IOError`) and of the JSON parse (`none` = `json.loads` raises
`ValueError`).  The source's `try`/`except IOError: return None` catches
only the missing-file case; a parse failure propagates, which the `Except`
error models. -/
def utils_load_graph (fileContents : Option String)
    (parseJson : String → Option CacheData) : Except PyError (Option GraphRecord) :=
  match fileContents with
  | none => .ok none
  | some s =>
    match parseJson s with
    | none => .error .valueError
    | some d => .ok (some ⟨d.last_update, dgSetData d.forward d.backward⟩)

/-! ## Reachability (the specification's "transitive closure") -/

/-- `GReach graph p q`: node `q` is reachable from `p` by following one or
more edges of the adjacency dict `graph`. -/
inductive GReach (graph : AList) : String → String → Prop
  | single {p q : String} : q ∈ edgeList graph p → GReach graph p q
  | tail {p q r : String} : GReach graph p q → r ∈ edgeList graph q → GReach graph p r

/-- The two-node cyclic graph of the spec's cycle-termination property:
`add('a', 'b'); add('b', 'a')`. -/
def cycleGraph : DepGraph := dgAdd (dgAdd dgEmpty "a" "b") "b" "a"

end GotoUsage

namespace GotoUsage

/-! ## Helper lemmas: association lists and `DepGraph.add`/`set` -/

theorem alookup_dictSet (d : AList) (k : String) (v : List String) (k' : String) :
    alookup (dictSet d k v) k' = if k' = k then some v else alookup d k' := by
  induction d with
  | nil => simp [dictSet, alookup]
  | cons hd t ih =>
    obtain ⟨k0, v0⟩ := hd
    by_cases h0 : k0 = k
    · subst h0
      by_cases h' : k' = k0 <;> simp [dictSet, alookup, h']
    · by_cases h' : k' = k0
      · subst h'
        simp [dictSet, alookup, h0]
      · simp [dictSet, alookup, h0, h', ih]

theorem edgeList_dictSet (d : AList) (k : String) (v : List String) (k' : String) :
    edgeList (dictSet d k v) k' = if k' = k then v else edgeList d k' := by
  simp only [edgeList, alookup_dictSet]
  by_cases h : k' = k <;> simp [h]

theorem mem_edgeList_addEdge {d : AList} {k v k' : String} {x : String} :
    x ∈ edgeList (addEdge d k v) k' ↔ x ∈ edgeList d k' ∨ (k' = k ∧ x = v) := by
  unfold addEdge
  cases hl : alookup d k with
  | none =>
    rw [edgeList_dictSet]
    by_cases h : k' = k
    · subst h; simp [edgeList, hl]
    · simp [h]
  | some l =>
    by_cases hv : v ∈ l
    · simp only [if_pos hv]
      by_cases h : k' = k
      · subst h
        simp only [edgeList, hl, Option.getD_some]
        constructor
        · exact fun hx => Or.inl hx
        · rintro (hx | ⟨-, rfl⟩)
          · exact hx
          · exact hv
      · simp [h]
    · simp only [if_neg hv, edgeList_dictSet]
      by_cases h : k' = k
      · subst h
        simp [edgeList, hl, List.mem_append]
      · simp [h]

theorem fwdMem_dgAdd {g : DepGraph} {a b p q : String} :
    fwdMem (dgAdd g a b) p q ↔ fwdMem g p q ∨ (p = a ∧ q = b) := by
  unfold fwdMem dgAdd
  exact mem_edgeList_addEdge

theorem bwdMem_dgAdd {g : DepGraph} {a b p q : String} :
    bwdMem (dgAdd g a b) q p ↔ bwdMem g q p ∨ (q = b ∧ p = a) := by
  unfold bwdMem dgAdd
  exact mem_edgeList_addEdge

/-- `add` preserves the symmetry invariant. -/
theorem symInv_dgAdd {g : DepGraph} (h : SymInv g) (a b : String) :
    SymInv (dgAdd g a b) := by
  intro p q
  rw [fwdMem_dgAdd, bwdMem_dgAdd, h p q]
  tauto

/-- `add` preserves the forward-to-backward half of the invariant. -/
theorem onedir_dgAdd {g : DepGraph} (h : ∀ p q, fwdMem g p q → bwdMem g q p)
    (a b : String) : ∀ p q, fwdMem (dgAdd g a b) p q → bwdMem (dgAdd g a b) q p := by
  intro p q hf
  rw [fwdMem_dgAdd] at hf
  rw [bwdMem_dgAdd]
  rcases hf with hf | ⟨rfl, rfl⟩
  · exact Or.inl (h p q hf)
  · exact Or.inr ⟨rfl, rfl⟩

theorem onedir_dgAddList {g : DepGraph} (h : ∀ p q, fwdMem g p q → bwdMem g q p)
    (a : String) (qs : List String) :
    ∀ p q, fwdMem (dgAddList g a qs) p q → bwdMem (dgAddList g a qs) q p := by
  induction qs generalizing g with
  | nil => exact h
  | cons b t ih => exact ih (onedir_dgAdd h a b)

theorem symInv_dgAddList {g : DepGraph} (h : SymInv g) (a : String) (qs : List String) :
    SymInv (dgAddList g a qs) := by
  induction qs generalizing g with
  | nil => exact h
  | cons b t ih => exact ih (symInv_dgAdd h a b)

theorem onedir_dgSet {g : DepGraph} (h : ∀ p q, fwdMem g p q → bwdMem g q p)
    (a : String) (qs : List String) :
    ∀ p q, fwdMem (dgSet g a qs) p q → bwdMem (dgSet g a qs) q p := by
  unfold dgSet
  cases hl : alookup g.forward_graph a with
  | none => exact onedir_dgAddList h a qs
  | some l =>
    refine onedir_dgAddList (fun p q hf => ?_) a qs
    have : fwdMem g p q := by
      unfold fwdMem at hf ⊢
      simp only [edgeList_dictSet] at hf
      by_cases hp : p = a
      · simp [hp] at hf
      · simpa [hp] using hf
    exact h p q this

/-- The forward-to-backward half of the invariant is preserved by every
operation. -/
theorem onedir_applyOps (ops : List DGOp) {g : DepGraph}
    (h : ∀ p q, fwdMem g p q → bwdMem g q p) :
    ∀ p q, fwdMem (applyOps ops g) p q → bwdMem (applyOps ops g) q p := by
  induction ops generalizing g with
  | nil => exact h
  | cons o t ih =>
    cases o with
    | add p q => exact ih (onedir_dgAdd h p q)
    | set p qs => exact ih (onedir_dgSet h p qs)

theorem symInv_dgEmpty : SymInv dgEmpty := by
  intro p q
  simp [fwdMem, bwdMem, dgEmpty, edgeList, alookup]

/-- Full symmetry is preserved by sequences that contain only `add`. -/
theorem symInv_applyOps_of_adds (ops : List DGOp) {g : DepGraph} (h : SymInv g)
    (hadd : ∀ o ∈ ops, ∃ p q, o = DGOp.add p q) : SymInv (applyOps ops g) := by
  induction ops generalizing g with
  | nil => exact h
  | cons o t ih =>
    obtain ⟨p, q, rfl⟩ := hadd o (List.mem_cons_self o t)
    exact ih (symInv_dgAdd h p q) (fun o' ho' => hadd o' (List.mem_cons_of_mem _ ho'))

/-! ## Helper lemmas: traversal soundness -/

/-- Invariant of the level loop: if everything accumulated so far is
reachable from `s` and every pending subject is `s` itself or reachable from
`s`, then everything the loop ever returns is reachable from `s`. -/
theorem traverse_loop_sound (graph : AList) (s : String) :
    ∀ (fuel : Nat) (results subjects : List String),
      (∀ y ∈ results, GReach graph s y) →
      (∀ y ∈ subjects, y = s ∨ GReach graph s y) →
      ∀ x ∈ traverse_loop graph fuel results subjects, GReach graph s x := by
  intro fuel
  induction fuel with
  | zero => intro results subjects hres _ x hx; exact hres x hx
  | succ n ih =>
    intro results subjects hres hsub x hx
    simp only [traverse_loop] at hx
    set current := subjects.flatMap
      (fun t => (edgeList graph t).filter (fun i => decide (i ∉ results))) with hcur
    have hcurReach : ∀ y ∈ current, GReach graph s y := by
      intro y hy
      rw [hcur, List.mem_flatMap] at hy
      obtain ⟨t, ht, hyt⟩ := hy
      have hedge : y ∈ edgeList graph t := (List.mem_filter.mp hyt).1
      rcases hsub t ht with rfl | hreach
      · exact GReach.single hedge
      · exact GReach.tail hreach hedge
    by_cases hemp : current = []
    · rw [if_pos hemp] at hx
      exact hres x hx
    · rw [if_neg hemp] at hx
      refine ih (results ++ current) current ?_ ?_ x hx
      · intro y hy
        rcases List.mem_append.mp hy with hy | hy
        · exact hres y hy
        · exact hcurReach y hy
      · exact fun y hy => Or.inr (hcurReach y hy)

/-- Everything `_traverse_graph` returns is reachable from the start node. -/
theorem traverse_graph_sound (loop_limit : Nat) (graph : AList) (s : String) :
    ∀ x ∈ _traverse_graph loop_limit graph s, GReach graph s x := by
  intro x hx
  rw [_traverse_graph, List.mem_dedup] at hx
  refine traverse_loop_sound graph s loop_limit [] [s] (by simp) ?_ x hx
  intro y hy
  rw [List.mem_singleton] at hy
  exact Or.inl hy

/-! ## Helper lemmas: `parse_lines` line numbers -/

/-- Every triple emitted by the classifier loop carries a line number
strictly greater than the running counter it was started with. -/
theorem parse_lines_go_line_nr_gt (mask : Nat) :
    ∀ (lines : List (List Char)) (ctx : List Nat) (off nr : Nat),
      ∀ e ∈ parse_lines_go mask lines ctx off nr, nr < e.2.1 := by
  intro lines
  induction lines with
  | nil => intro ctx off nr e he; simp [parse_lines_go] at he
  | cons l rest ih =>
    intro ctx off nr e he
    have step : ∀ (ctx' : List Nat) (off' : Nat),
        e ∈ parse_lines_go mask rest ctx' off' (nr + 1) → nr < e.2.1 := by
      intro ctx' off' h
      exact Nat.lt_of_succ_lt (ih ctx' off' (nr + 1) e h)
    simp only [parse_lines_go] at he
    split at he
    · rcases List.mem_append.mp he with h | h
      · split at h
        · rw [List.mem_singleton] at h; subst h; exact Nat.lt_succ_self nr
        · simp at h
      · exact step _ _ h
    · split at he
      · rcases List.mem_append.mp he with h | h
        · split at h
          · rw [List.mem_singleton] at h; subst h; exact Nat.lt_succ_self nr
          · simp at h
        · exact step _ _ h
      · split at he
        · rcases List.mem_append.mp he with h | h
          · split at h
            · rw [List.mem_singleton] at h; subst h; exact Nat.lt_succ_self nr
            · simp at h
          · exact step _ _ h
        · split at he
          · rcases List.mem_append.mp he with h | h
            · split at h
              · rw [List.mem_singleton] at h; subst h; exact Nat.lt_succ_self nr
              · simp at h
            · exact step _ _ h
          · split at he
            · rcases List.mem_append.mp he with h | h
              · split at h
                · rw [List.mem_singleton] at h; subst h; exact Nat.lt_succ_self nr
                · simp at h
              · exact step _ _ h
            · split at he
              · rcases List.mem_append.mp he with h | h
                · split at h
                  · rw [List.mem_singleton] at h; subst h; exact Nat.lt_succ_self nr
                  · simp at h
                · exact step _ _ h
              · split at he
                · rcases List.mem_cons.mp he with h | h
                  · subst h; exact Nat.lt_succ_self nr
                  · exact step _ _ h
                · exact step _ _ he

/-- The triples emitted by the classifier loop have strictly increasing line
numbers. -/
theorem parse_lines_go_pairwise (mask : Nat) :
    ∀ (lines : List (List Char)) (ctx : List Nat) (off nr : Nat),
      (parse_lines_go mask lines ctx off nr).Pairwise (fun a b => a.2.1 < b.2.1) := by
  intro lines
  induction lines with
  | nil => intro ctx off nr; simp [parse_lines_go]
  | cons l rest ih =>
    intro ctx off nr
    have emitCase : ∀ (x : Nat × Nat × List Char) (ctx' : List Nat) (off' : Nat),
        x.2.1 = nr + 1 →
        (x :: parse_lines_go mask rest ctx' off' (nr + 1)).Pairwise
          (fun a b => a.2.1 < b.2.1) := by
      intro x ctx' off' hx
      refine List.Pairwise.cons (fun b hb => ?_) (ih ctx' off' (nr + 1))
      rw [hx]
      exact parse_lines_go_line_nr_gt mask rest ctx' off' (nr + 1) b hb
    have branchCase : ∀ (c : Prop) (inst : Decidable c) (x : Nat × Nat × List Char)
        (ctx' : List Nat) (off' : Nat), x.2.1 = nr + 1 →
        ((if c then [x] else []) ++ parse_lines_go mask rest ctx' off' (nr + 1)).Pairwise
          (fun a b => a.2.1 < b.2.1) := by
      intro c inst x ctx' off' hx
      by_cases hc : c
      · rw [if_pos hc, List.singleton_append]
        exact emitCase x ctx' off' hx
      · rw [if_neg hc, List.nil_append]
        exact ih ctx' off' (nr + 1)
    simp only [parse_lines_go]
    split
    · exact branchCase _ _ _ _ _ rfl
    · split
      · exact branchCase _ _ _ _ _ rfl
      · split
        · exact branchCase _ _ _ _ _ rfl
        · split
          · exact branchCase _ _ _ _ _ rfl
          · split
            · exact branchCase _ _ _ _ _ rfl
            · split
              · exact branchCase _ _ _ _ _ rfl
              · split
                · exact emitCase _ _ _ rfl
                · exact ih _ _ (nr + 1)

/-- `filterMap` preserves pairwise orderings that the partial map
transports. -/
theorem pairwise_filterMap_of {α β : Type} {R : α → α → Prop} {S : β → β → Prop}
    (f : α → Option β)
    (hf : ∀ a b x y, R a b → f a = some x → f b = some y → S x y) :
    ∀ {l : List α}, l.Pairwise R → (l.filterMap f).Pairwise S := by
  intro l hl
  induction hl with
  | nil => simp
  | @cons a l' ha _ ih =>
    rw [List.filterMap_cons]
    cases hfa : f a with
    | none => exact ih
    | some x =>
      refine List.Pairwise.cons (fun y hy => ?_) ih
      obtain ⟨b, hb, hfb⟩ := List.mem_filterMap.mp hy
      exact hf a b x y (ha b hb) hfa hfb

/-- The usage records of a file have strictly increasing line numbers; in
particular at most one record is produced per line. -/
theorem get_usages_pairwise (lines : List (List Char)) (subject : List Char) :
    (get_usages_in_file lines subject).Pairwise (fun u v => u.line_nr < v.line_nr) := by
  unfold get_usages_in_file
  refine pairwise_filterMap_of _ ?_ (parse_lines_go_pairwise C_CODE lines [C_CODE] 0 0)
  intro a b x y hab hx hy
  have hxa : x.line_nr = a.2.1 := by
    split at hx
    · exact absurd hx (by simp)
    · split at hx
      · cases hx; rfl
      · exact absurd hx (by simp)
  have hyb : y.line_nr = b.2.1 := by
    split at hy
    · exact absurd hy (by simp)
    · split at hy
      · cases hy; rfl
      · exact absurd hy (by simp)
  rw [hxa, hyb]
  exact hab

/-! ## Claim C1 — graph symmetry invariant -/

/-- C1, counterexample.  The claimed invariant
`q ∈ forward[p] ⟺ p ∈ backward[q]` after any sequence of `add`/`set` calls
is false: after `add('a','b'); set('a',['c'])` the dropped dependee `'b'`
still lists `'a'` in its backward entry while the forward edge is gone —
`set` clears `forward[dependant]` but never prunes the dependees' backward
lists. -/
theorem c1_counterexample :
    bwdMem (applyOps [DGOp.add "a" "b", DGOp.set "a" ["c"]] dgEmpty) "b" "a" ∧
    ¬ fwdMem (applyOps [DGOp.add "a" "b", DGOp.set "a" ["c"]] dgEmpty) "a" "b" := by
  decide

/-- C1, amended.  After any finite sequence of `add`/`set` operations on an
initially empty graph, the forward-to-backward half of the invariant holds
(`q ∈ forward[p] → p ∈ backward[q]`); the full two-sided invariant holds
after any sequence consisting of `add` operations only.  (After a `set`, a
dependee dropped from `p`'s forward list can retain a stale backward entry
for `p`, as `c1_counterexample` shows.) -/
theorem c1_symmetry_amended :
    (∀ (ops : List DGOp) (p q : String),
        fwdMem (applyOps ops dgEmpty) p q → bwdMem (applyOps ops dgEmpty) q p) ∧
    (∀ ops : List DGOp, (∀ o ∈ ops, ∃ p q, o = DGOp.add p q) →
        SymInv (applyOps ops dgEmpty)) :=
  ⟨fun ops => onedir_applyOps ops (fun p q h => (symInv_dgEmpty p q).mp h),
   fun ops h => symInv_applyOps_of_adds ops symInv_dgEmpty h⟩

/-- C1, witness for `c1_symmetry_amended` at a concrete input. -/
theorem c1_witness :
    bwdMem (applyOps [DGOp.add "a" "b"] dgEmpty) "b" "a" ∧
    SymInv (applyOps [DGOp.add "a" "b"] dgEmpty) :=
  ⟨c1_symmetry_amended.1 [DGOp.add "a" "b"] "a" "b" (by decide),
   c1_symmetry_amended.2 [DGOp.add "a" "b"]
     (fun o ho => ⟨"a", "b", List.mem_singleton.mp ho⟩)⟩

/-! ## Claim C2 — idempotent re-add and the `num_deps` invariant -/

/-- C2, evaluation at the failing input.  Calling `add('a','b')` twice does
leave exactly one forward edge `a→b`, but `num_deps` ends at 2 while the
total forward edge count is 1: the source increments `num_deps`
unconditionally, before its duplicate checks, so the claimed invariant
`num_deps == sum(len(v) for v in forward.values())` fails — even though
`set_data` recomputes `num_deps` as exactly that sum, showing the intended
meaning of the counter. -/
theorem c2_num_deps_eval :
    edgeList (dgAdd (dgAdd dgEmpty "a" "b") "a" "b").forward_graph "a" = ["b"] ∧
    (dgAdd (dgAdd dgEmpty "a" "b") "a" "b").num_deps = 2 ∧
    total_forward_edges (dgAdd (dgAdd dgEmpty "a" "b") "a" "b") = 1 := by
  decide

/-! ## Claim C3 — staleness rebuild after 24 hours -/

/-- C3, evaluation at the failing input.  A cached record 48 hours old
(`last_update = 0`, `now = 172800` seconds) is installed as fresh instead of
triggering a rebuild: the source compares seconds (`time.time()`) against
the constant `1000 * 60 * 60 * 24 = 86400000`, i.e. a threshold of about
1000 days, not 24 hours — only a record older than that is rebuilt, as the
second conjunct shows just past the actual boundary. -/
theorem c3_staleness_eval :
    core_load_graph (some ⟨0, dgAdd dgEmpty "a" "b"⟩) 172800 =
      GraphLoadOutcome.install ∧
    (172800 : Int) = 2 * (60 * 60 * 24) ∧
    core_load_graph (some ⟨0, dgAdd dgEmpty "a" "b"⟩) 86400001 =
      GraphLoadOutcome.rebuild_stale := by
  decide

/-! ## Claim C4 — genuine-usage filtering examples -/

/-- C4, counterexample.  The claim states `x = Foo.bar()` IS a usage of
`Foo`; the predicate rejects it, because the character after the match,
`'.'`, is not in the word-break character class
`[^\s()\[\]{},+*/%!;:'"=<>-]`'s complement — `.` is missing from the break
set, so `re.match` on `'.'` succeeds and the function returns `False`. -/
theorem c4_counterexample :
    is_actual_usage ("x = Foo.bar()".data) ("Foo".data) = false := by
  decide

/-- C4, amended.  For subject `"Foo"`: `class Foo extends Bar`,
`let Foo = 5`, `import Foo from "./foo"` and `"this mentions Foo in a
string"` are rejected exactly as claimed, but `x = Foo.bar()` is also
rejected (the `'.'` immediately after the subject fails the word-break
test); a call form such as `x = Foo()` is accepted as a usage. -/
theorem c4_usage_filtering_amended :
    is_actual_usage ("class Foo extends Bar".data) ("Foo".data) = false ∧
    is_actual_usage ("let Foo = 5".data) ("Foo".data) = false ∧
    is_actual_usage ("x = Foo.bar()".data) ("Foo".data) = false ∧
    is_actual_usage ("x = Foo()".data) ("Foo".data) = true ∧
    is_actual_usage ("import Foo from \"./foo\"".data) ("Foo".data) = false ∧
    is_actual_usage ("\"this mentions Foo in a string\"".data) ("Foo".data) = false := by
  decide

/-! ## Claim C5 — multi-line comment terminator -/

/-- C5, evaluation at the failing input.  On the file
`/* a` / `b` / `*/` / `x = 1`, the closing line `*/` never pops the comment
context — the source's `MULTI_LINE_COMMENT_END` list contains `'/*'`, not
`'*/'`, and the pop branch tests `line.startswith('/*')` — so requesting
code context yields nothing (the claim expects `x = 1` as a code line), and
requesting comment context yields all four lines (the claim expects only the
three lines of the block; the in-comment terminator check's own source
comment refers to `*/`). -/
theorem c5_comment_terminator_eval :
    parse_lines ["/* a\n".data, "b\n".data, "*/\n".data, "x = 1\n".data] C_CODE = [] ∧
    parse_lines ["/* a\n".data, "b\n".data, "*/\n".data, "x = 1\n".data] C_COMMENT =
      [(0, 1, "/* a\n".data), (5, 2, "b\n".data), (7, 3, "*/\n".data),
       (10, 4, "x = 1\n".data)] := by
  decide

/-! ## Claim C6 — byte-offset tracking -/

/-- C6, evaluation at the failing input.  On the file
`/* a` / `bb` / `/*` / `x` (the third line closes the comment block under
the source's `'/*'` terminator) with requested context `C_CODE`, the code
line `x` is emitted with byte offset 8, not the sum `5 + 3 + 3 = 11` of the
three preceding untrimmed line lengths: the fall-through branch of
`parse_lines` advances `line_start` only when the line is emitted, so the
unemitted comment line `bb` does not advance the offset. -/
theorem c6_offset_tracking_eval :
    parse_lines ["/* a\n".data, "bb\n".data, "/*\n".data, "x\n".data] C_CODE =
      [(8, 4, "x\n".data)] ∧
    "/* a\n".data.length + "bb\n".data.length + "/*\n".data.length = 11 ∧
    (8 : Nat) ≠ 11 := by
  decide

/-! ## Claim C7 — string-literal detection -/

/-- C7, counterexample.  On `boo\"foo"bar` the claim states the single
returned range covers the `foo` span; in fact `find_strings` returns
`[(8, 12)]`: the escaped quote at index 4 is skipped, the unescaped quote at
index 8 (after `foo`, which occupies indices 5–7) opens an unterminated
literal, and the range runs from 8 to end-of-line — covering `bar`, not
`foo` (`8 ≤ 5` fails, so the range starts after the `foo` span; the source's
own doctest records this very output). -/
theorem c7_counterexample :
    find_strings ("boo\\\"foo\"bar".data) = [(8, 12)] ∧
    findSubstrIdx ("boo\\\"foo\"bar".data) ("foo".data) = some 5 ∧
    ¬ ((8 : Nat) ≤ 5) := by
  decide

/-- C7, amended.  `find_strings` on `"foo" + `bar` + 123` returns exactly
the two ranges `(0, 4)` and `(8, 12)` covering the quoted `foo` and `bar`
spans, delimiters included; on `boo\"foo"bar` it returns exactly one range,
`(8, 12)`, which starts at the unescaped quote following `foo` (the escaped
quote before `foo` is not treated as a delimiter) and extends to
end-of-line (index 12 = line length) because that delimiter is never
closed. -/
theorem c7_find_strings_amended :
    find_strings ("\"foo\" + `bar` + 123".data) = [(0, 4), (8, 12)] ∧
    find_strings ("boo\\\"foo\"bar".data) = [(8, 12)] ∧
    ("boo\\\"foo\"bar".data).length = 12 := by
  decide

/-! ## Claim C8 — cache load failure handling -/

/-- C8, counterexample.  Loading a cache file whose contents do not parse
does not return the "no cache" result: `json.loads` raises `ValueError`,
and the source's `except IOError` clause does not catch it, so the
exception propagates instead of `None` being returned. -/
theorem c8_counterexample :
    utils_load_graph (some "corrupt") (fun _ => none) =
      Except.error PyError.valueError ∧
    utils_load_graph (some "corrupt") (fun _ => none) ≠ Except.ok none := by
  exact ⟨rfl, by simp [utils_load_graph]⟩

/-- C8, amended.  A missing cache file does yield the "no cache" result
(`open` raises `IOError`, which the source catches and converts to `None`,
for any parser); corrupt contents instead raise an uncaught `ValueError`. -/
theorem c8_load_failure_amended :
    (∀ parseJson : String → Option CacheData,
        utils_load_graph none parseJson = Except.ok none) ∧
    utils_load_graph (some "corrupt") (fun _ => none) =
      Except.error PyError.valueError :=
  ⟨fun _ => rfl, rfl⟩

/-! ## Claim C9 — cycle termination of the graph traversal -/

/-- C9.  The level-by-level traversal is a total function for every graph
and level cap (it runs at most `loop_limit` levels and stops early on an
empty level), every node it returns is reachable from the start node, and
on the cyclic graph `add('a','b'); add('b','a')` both `get_dependants('a')`
and `get_dependees('a')` return exactly the reachable set `{a, b}` — with
the same result for every level cap of at least 3, showing the traversal
halts on the empty level rather than exhausting the cap. -/
theorem c9_cycle_termination :
    (∀ (loop_limit : Nat) (graph : AList) (s : String),
        ∀ x ∈ _traverse_graph loop_limit graph s, GReach graph s x) ∧
    (∀ x, x ∈ dg_get_dependants cycleGraph "a" ↔ (x = "b" ∨ x = "a")) ∧
    (∀ x, x ∈ dg_get_dependees cycleGraph "a" ↔ (x = "b" ∨ x = "a")) ∧
    (∀ fuel, 3 ≤ fuel → _traverse_graph fuel cycleGraph.forward_graph "a" = ["b", "a"]) := by
  refine ⟨traverse_graph_sound, ?_, ?_, ?_⟩
  · intro x
    have h : dg_get_dependants cycleGraph "a" = ["b", "a"] := by decide
    rw [h]
    simp
  · intro x
    have h : dg_get_dependees cycleGraph "a" = ["b", "a"] := by decide
    rw [h]
    simp
  · intro fuel h
    obtain ⟨k, rfl⟩ : ∃ k, fuel = k + 3 := ⟨fuel - 3, by omega⟩
    rfl

/-- C9, witness for `c9_cycle_termination` at concrete inputs. -/
theorem c9_witness :
    GReach cycleGraph.backward_graph "a" "b" ∧
    _traverse_graph 5 cycleGraph.forward_graph "a" = ["b", "a"] :=
  ⟨c9_cycle_termination.1 50 cycleGraph.backward_graph "a" "b" (by decide),
   c9_cycle_termination.2.2.2 5 (by decide)⟩

/-! ## Claim C10 — one usage per line, first occurrence only -/

/-- C10.  Usage records carry strictly increasing line numbers, so at most
one record is produced per scanned line.  Only the first literal occurrence
of the subject on a line is considered: on `x = "Foo" + Foo` the first
occurrence (index 5, inside the string literal) fails the genuine-usage
test and the line yields no usage at all, although a second occurrence
exists at index 12 whose syntactic position qualifies — as the otherwise
identical line `x = y + Foo` shows, which yields exactly one record whose
region starts at its first occurrence index 8. -/
theorem c10_first_occurrence :
    (∀ (lines : List (List Char)) (subject : List Char),
        (get_usages_in_file lines subject).Pairwise (fun u v => u.line_nr < v.line_nr)) ∧
    get_usages_in_file ["x = \"Foo\" + Foo\n".data] ("Foo".data) = [] ∧
    findSubstrIdx ("x = \"Foo\" + Foo\n".data) ("Foo".data) = some 5 ∧
    ("Foo".data).isPrefixOf ("x = \"Foo\" + Foo\n".data.drop 12) = true ∧
    get_usages_in_file ["x = y + Foo\n".data] ("Foo".data) = [⟨1, 8, 11⟩] ∧
    findSubstrIdx ("x = y + Foo\n".data) ("Foo".data) = some 8 :=
  ⟨fun lines subject => get_usages_pairwise lines subject,
   by decide, by decide, by decide, by decide, by decide⟩

end GotoUsage
